import Mathlib

/-!
Verification of the NMPC trajectory-tracking controller node
(`nmpc_pkg/controller_node.py`).

The Python node is embedded shallowly:

* `numpy` float arrays of shape `(L, 3)` become `List Pose` with real-number
  (`ℝ`) components; all floating-point arithmetic is modelled exactly over `ℝ`.
* `np.unwrap`, `np.arctan2`, `np.argmin` and `np.linalg.norm` are reproduced
  from their documented numpy semantics (`unwrap`, `atan2`, `argminFirst`,
  and an explicit square root of the sum of squares).
* The mutable instance fields of the `NMPCNode` object become the record
  `NodeState`; each ROS callback (`odom_callback`, the `control_loop` timer
  callback) becomes a function from `NodeState` to `NodeState`, with the
  externally observable per-tick actions (published command, solver
  invocation, telemetry datagram) collected in a `TickEffects` record.
* The external `Controller.solve` optimiser is an opaque parameter
  (`Solver`); the CSV reader is modelled by rows of already-parsed cells
  (`Option ℝ`: `none` for a cell that fails `float(...)`).
* Wall-clock measurements (`time.time()`) and the UDP transport itself are
  not modelled; only the payload fields derived from controller state are.
-/

namespace NMPC

noncomputable section

/-- A pose `(x, y, θ)`: one row of the `(L, 3)` trajectory arrays used by the
node, and also the robot state triple `np.array([x, y, yaw])`. -/
structure Pose where
  x : ℝ
  y : ℝ
  theta : ℝ


/-- A control input `(v, ω)`: linear and angular velocity, as in the node's
2-element control vectors (`previous_control`, `optimal_control`). -/
structure Control where
  v : ℝ
  w : ℝ


/-- Two-argument arctangent with the semantics of `np.arctan2 y x`: the angle
of the point `(x, y)` in `(-π, π]` (the model collapses signed zeros, which
`ℝ` cannot distinguish). -/
def atan2 (y x : ℝ) : ℝ :=
  if 0 < x then Real.arctan (y / x)
  else if x < 0 then
    (if 0 ≤ y then Real.arctan (y / x) + Real.pi else Real.arctan (y / x) - Real.pi)
  else if 0 < y then Real.pi / 2
  else if y < 0 then -(Real.pi / 2)
  else 0

/-- Real-valued `np.mod a b` for `b > 0`: `a - b * ⌊a / b⌋`. -/
def npMod (a b : ℝ) : ℝ := a - b * ⌊a / b⌋

/-- The wrapped consecutive difference used inside `np.unwrap` (period `2π`):
`mod(dd + π, 2π) - π`, with the boundary value `-π` replaced by `π` when the
original difference is positive. -/
def wrapDiff (d : ℝ) : ℝ :=
  if npMod (d + Real.pi) (2 * Real.pi) - Real.pi = -Real.pi ∧ 0 < d then Real.pi
  else npMod (d + Real.pi) (2 * Real.pi) - Real.pi

/-- The phase correction `np.unwrap` adds for one consecutive difference `d`:
zero when `|d|` is below the default discontinuity threshold `π`, otherwise
`wrapDiff d - d` (always an integer multiple of `2π`). -/
def numpyCorr (d : ℝ) : ℝ :=
  if |d| < Real.pi then 0 else wrapDiff d - d

/-- Tail of `np.unwrap`: `corr` is the accumulated phase correction so far and
`prev` the previous element of the *original* sequence; each output element is
the original element plus the accumulated correction. -/
def unwrapAux (corr prev : ℝ) : List ℝ → List ℝ
  | [] => []
  | a :: rest =>
      (a + (corr + numpyCorr (a - prev))) :: unwrapAux (corr + numpyCorr (a - prev)) a rest

/-- Semantics of `np.unwrap` (default `discont = π`, `period = 2π`) on a 1-D
sequence: the first element is unchanged and each later element is shifted by
the running sum of per-step phase corrections. -/
def unwrap : List ℝ → List ℝ
  | [] => []
  | a :: rest => a :: unwrapAux 0 a rest

/-- Tail-scan of `np.argmin`: `i` is the index of the head of `l` in the full
array, `best`/`bestC` the best index and value so far.  The best entry is
replaced only on a strictly smaller value, so the first occurrence of the
minimum wins. -/
def argminAux {α : Type} [LinearOrder α] : List α → ℕ → ℕ → α → ℕ
  | [], _, best, _ => best
  | c :: cs, i, best, bestC =>
      if c < bestC then argminAux cs (i + 1) i c else argminAux cs (i + 1) best bestC

/-- Semantics of `np.argmin` on a 1-D array: index of the first occurrence of
the minimum (`0` on the empty list, where numpy would raise). -/
def argminFirst {α : Type} [LinearOrder α] : List α → ℕ
  | [] => 0
  | c :: cs => argminAux cs 1 0 c

/-- The per-point cost array built by `find_closest_point_index`
(`controller_node.py` lines 150-168): Euclidean distance of each trajectory
position to the current position, plus `0.2` times the absolute wrapped
difference between the *unwrapped* trajectory orientations and the current
yaw. -/
def costList (reference_trajectory : List Pose) (current_state : Pose) : List ℝ :=
  List.zipWith (fun d a => d + 0.2 * a)
    (reference_trajectory.map (fun p =>
      Real.sqrt ((p.x - current_state.x) ^ 2 + (p.y - current_state.y) ^ 2)))
    ((unwrap (reference_trajectory.map Pose.theta)).map (fun a =>
      |atan2 (Real.sin (a - current_state.theta)) (Real.cos (a - current_state.theta))|))

/-- Line 171 of `controller_node.py`: `closest_index = np.argmin(cost)` — the
first index minimising the combined cost. -/
def closestIndexRaw (reference_trajectory : List Pose) (current_state : Pose) : ℕ :=
  argminFirst (costList reference_trajectory current_state)

/-- The fixed data of the node: the reference trajectory loaded at startup,
the path-following behaviour string (`self.path_type`, `'stop'` or
`'repeat'`), and the horizon length `N` the `Controller` was built with. -/
structure Config where
  reference_trajectory : List Pose
  path_type : String
  N : ℕ

/-- Horizon length derivation `scale_N` (`controller_node.py` lines 121-132):
`N = 10` for trajectories shorter than 500 points, else `len / 50` rounded
toward zero. -/
def scale_N (trajectory : List Pose) : ℕ :=
  if trajectory.length < 500 then 10 else trajectory.length / 50

/-- The node's `Config` as `_init_controller` builds it: `N` is derived from
the loaded trajectory by `scale_N`. -/
def initConfig (reference_trajectory : List Pose) (path_type : String) : Config :=
  { reference_trajectory := reference_trajectory, path_type := path_type,
    N := scale_N reference_trajectory }

/-- The method `find_closest_point_index` (`controller_node.py` lines
150-186).  Besides the returned index it may set the `self.stop` flag, so the
model takes the current flag and returns `(index, new flag)`.  When the
argmin falls within `N` of the end of the trajectory (an `int` comparison in
Python, so `L - N` may be negative): under `'stop'` the flag is set and the
argmin is still returned; under `'repeat'` index `1` is returned; any other
string falls through to the plain argmin. -/
def find_closest_point_index (cfg : Config) (stop : Bool) (current_state : Pose) :
    ℕ × Bool :=
  if (cfg.reference_trajectory.length : ℤ) - (cfg.N : ℤ) ≤
      (closestIndexRaw cfg.reference_trajectory current_state : ℤ) then
    if cfg.path_type = "stop" then
      (closestIndexRaw cfg.reference_trajectory current_state, true)
    else if cfg.path_type = "repeat" then (1, stop)
    else (closestIndexRaw cfg.reference_trajectory current_state, stop)
  else (closestIndexRaw cfg.reference_trajectory current_state, stop)

/-- The window-building loop and final unwrap of `reference_trajectory_N`
(`controller_node.py` lines 193-206): `N + 1` rows taken cyclically from
`closest_index`, after which the orientation column (only) is unwrapped. -/
def extractHorizon (reference_trajectory : List Pose) (closest_index N : ℕ) :
    List Pose :=
  List.zipWith (fun p t => { x := p.x, y := p.y, theta := t })
    ((List.range (N + 1)).map (fun i =>
      reference_trajectory.getD ((closest_index + i) % reference_trajectory.length)
        { x := 0, y := 0, theta := 0 }))
    (unwrap (((List.range (N + 1)).map (fun i =>
      reference_trajectory.getD ((closest_index + i) % reference_trajectory.length)
        { x := 0, y := 0, theta := 0 })).map Pose.theta))

/-- The method `reference_trajectory_N` (`controller_node.py` lines 188-206):
run the nearest-point search (which may set the stop flag) and extract the
`N + 1`-point horizon from the returned index. -/
def reference_trajectory_N (cfg : Config) (stop : Bool) (current_state : Pose) :
    List Pose × Bool :=
  (extractHorizon cfg.reference_trajectory
      (find_closest_point_index cfg stop current_state).1 cfg.N,
   (find_closest_point_index cfg stop current_state).2)

/-- The method `unwrap_current_state` (`controller_node.py` lines 227-242):
shift the current yaw by `∓2π` when its raw difference from the first horizon
orientation exceeds `π` in magnitude; positions pass through unchanged. -/
def unwrap_current_state (current_state : Pose) (ref_trajectory : List Pose) : Pose :=
  if Real.pi <
      |current_state.theta - (ref_trajectory.getD 0 { x := 0, y := 0, theta := 0 }).theta| then
    if 0 < current_state.theta - (ref_trajectory.getD 0 { x := 0, y := 0, theta := 0 }).theta then
      { x := current_state.x, y := current_state.y, theta := current_state.theta - 2 * Real.pi }
    else
      { x := current_state.x, y := current_state.y, theta := current_state.theta + 2 * Real.pi }
  else { x := current_state.x, y := current_state.y, theta := current_state.theta }

/-- The method `euler_from_quaternion` (`controller_node.py` lines 134-148),
returning `(roll, pitch, yaw)`. -/
def euler_from_quaternion (x y z w : ℝ) : ℝ × ℝ × ℝ :=
  (atan2 (2 * (w * x + y * z)) (1 - 2 * (x * x + y * y)),
   Real.arcsin (2 * (w * y - z * x)),
   atan2 (2 * (w * z + x * y)) (1 - 2 * (y * y + z * z)))

/-- Errors of the trajectory loader: `emptyFile` models the uncaught
`StopIteration` from `next(csv_reader)` on an input with no rows, `badRow`
the uncaught `ValueError` from `x, y, theta = map(float, row)` on a row that
is not exactly three parseable floats. -/
inductive LoadError where
  | emptyFile : LoadError
  | badRow : LoadError
deriving DecidableEq

/-- One CSV row, each cell abstracted to its `float(...)` parse result
(`none` when parsing would raise `ValueError`). -/
abbrev CsvRow := List (Option ℝ)

/-- The unpacking `x, y, theta = map(float, row)`: succeeds exactly when the
row has three cells and all three parse. -/
def parseRow : CsvRow → Option Pose
  | [some x, some y, some t] => some { x := x, y := y, theta := t }
  | _ => none

/-- The row loop of `load_trajectory`: parse each remaining row in order,
failing on the first bad one. -/
def parseRows : List CsvRow → Except LoadError (List Pose)
  | [] => Except.ok []
  | r :: rs =>
      match parseRow r with
      | none => Except.error LoadError.badRow
      | some p =>
          match parseRows rs with
          | Except.error e => Except.error e
          | Except.ok ps => Except.ok (p :: ps)

/-- The method `load_trajectory` (`controller_node.py` lines 110-119): on an
empty input `next(csv_reader)` raises; otherwise the first row (the CSV
header) is discarded and every remaining row is parsed as three floats. -/
def load_trajectory : List CsvRow → Except LoadError (List Pose)
  | [] => Except.error LoadError.emptyFile
  | _header :: rows => parseRows rows

/-- The mutable instance fields of `NMPCNode` that the modelled callbacks
read or write.  `current_state` and `initial_position` start as Python
`None`; `odom_received` is only ever created (set `True`) inside
`odom_callback`, and the control-loop timer cannot exist before that, so its
unset state is modelled as `false`.  `x_position`, `y_position` and `yaw`
are written before they are ever read; their initial values are arbitrary. -/
structure NodeState where
  current_state : Option Pose
  previous_control : Control
  x_position : ℝ
  y_position : ℝ
  yaw : ℝ
  initial_position : Option Pose
  initial_position_received : Bool
  odom_received : Bool
  stop : Bool
  optimal_control : Option Control
  next_states : Option (List Pose)

/-- The node state right after `_init_state_variables` / `_init_controller`:
no pose yet, `previous_control = np.zeros(2)`, `stop = False`. -/
def initialState : NodeState :=
  { current_state := none, previous_control := { v := 0, w := 0 },
    x_position := 0, y_position := 0, yaw := 0,
    initial_position := none, initial_position_received := false,
    odom_received := false, stop := false,
    optimal_control := none, next_states := none }

/-- An incoming `Odometry` message, reduced to the fields `odom_callback`
reads: the position and the orientation quaternion. -/
structure OdomMsg where
  px : ℝ
  py : ℝ
  qx : ℝ
  qy : ℝ
  qz : ℝ
  qw : ℝ

/-- The subscription callback `odom_callback` (`controller_node.py` lines
87-108).  The position fields are copied first; a message whose position is
exactly `(0, 0)` is then discarded (early `return`), leaving
`current_state`, `initial_position` and both flags untouched. -/
def odom_callback (s : NodeState) (msg : OdomMsg) : NodeState :=
  if msg.px = 0 ∧ msg.py = 0 then
    { s with x_position := msg.px, y_position := msg.py }
  else
    { s with
      x_position := msg.px, y_position := msg.py,
      yaw := (euler_from_quaternion msg.qx msg.qy msg.qz msg.qw).2.2,
      current_state := some
        { x := msg.px, y := msg.py,
          theta := (euler_from_quaternion msg.qx msg.qy msg.qz msg.qw).2.2 },
      initial_position :=
        if s.initial_position_received then s.initial_position
        else some
          { x := msg.px, y := msg.py,
            theta := (euler_from_quaternion msg.qx msg.qy msg.qz msg.qw).2.2 },
      initial_position_received := true,
      odom_received := true }

/-- The JSON payload `send_data` builds (minus the wall-clock
`optimisation_time`, which the model does not measure). -/
structure Telemetry where
  actual_x : ℝ
  actual_y : ℝ
  forecast_x : List ℝ
  forecast_y : List ℝ
  closest_x : ℝ
  closest_y : ℝ

/-- The method `send_data` (`controller_node.py` lines 208-225): re-run the
nearest-point search (which can set the stop flag again), look up the closest
trajectory point, and assemble the datagram.  Returns the payload and the
possibly-updated stop flag.  (Python would raise `IndexError` if the returned
index fell outside the array — only possible for the substituted index `1` on
a one-point path under `'repeat'` — the model totalises this lookup with
`getD`.) -/
def send_data (cfg : Config) (stop : Bool) (current_state : Pose)
    (next_states : List Pose) : Telemetry × Bool :=
  ({ actual_x := current_state.x, actual_y := current_state.y,
     forecast_x := next_states.map Pose.x, forecast_y := next_states.map Pose.y,
     closest_x := (cfg.reference_trajectory.getD
        (find_closest_point_index cfg stop current_state).1
        { x := 0, y := 0, theta := 0 }).x,
     closest_y := (cfg.reference_trajectory.getD
        (find_closest_point_index cfg stop current_state).1
        { x := 0, y := 0, theta := 0 }).y },
   (find_closest_point_index cfg stop current_state).2)

/-- The opaque external optimiser `Controller.solve`: from the unwrapped
current state, the reference horizon and the reference control sequence it
produces the optimal control together with its internal predicted states
(`self.controller.next_states`). -/
abbrev Solver := Pose → List Pose → List Control → Control × List Pose

/-- The externally observable actions of one timer tick: the `Twist` command
published on `cmd_vel` (with the `(v, ω)` fields that are filled in), the
invocation of `Controller.solve` with its arguments, and the telemetry
datagram.  Each is `none` on a tick that returns early. -/
structure SolverCall where
  state : Pose
  horizon : List Pose
  ref_controls : List Control

structure TickEffects where
  command : Option Control
  solverCall : Option SolverCall
  telemetry : Option Telemetry

/-- The timer callback `control_loop` (`controller_node.py` lines 244-289).
If no odometry has arrived the tick only logs and returns.  Otherwise: build
the horizon (running the nearest-point search, which may set the stop flag),
tile the previous control `N` times as the reference controls, unwrap the
current state, call the solver, publish either the zero command (when the
stop flag is set, checked *after* this tick's search) or the solver's
control, and send the telemetry datagram (whose own search may set the flag
again).  `self.previous_control` is never reassigned anywhere in the class. -/
def control_loop (cfg : Config) (solver : Solver) (s : NodeState) :
    NodeState × TickEffects :=
  if s.odom_received = false then
    (s, { command := none, solverCall := none, telemetry := none })
  else
    ({ s with
        stop := (send_data cfg
          (reference_trajectory_N cfg s.stop
            (s.current_state.getD { x := 0, y := 0, theta := 0 })).2
          (s.current_state.getD { x := 0, y := 0, theta := 0 })
          (solver
            (unwrap_current_state (s.current_state.getD { x := 0, y := 0, theta := 0 })
              (reference_trajectory_N cfg s.stop
                (s.current_state.getD { x := 0, y := 0, theta := 0 })).1)
            (reference_trajectory_N cfg s.stop
              (s.current_state.getD { x := 0, y := 0, theta := 0 })).1
            (List.replicate cfg.N s.previous_control)).2).2,
        optimal_control := some
          (solver
            (unwrap_current_state (s.current_state.getD { x := 0, y := 0, theta := 0 })
              (reference_trajectory_N cfg s.stop
                (s.current_state.getD { x := 0, y := 0, theta := 0 })).1)
            (reference_trajectory_N cfg s.stop
              (s.current_state.getD { x := 0, y := 0, theta := 0 })).1
            (List.replicate cfg.N s.previous_control)).1,
        next_states := some
          (solver
            (unwrap_current_state (s.current_state.getD { x := 0, y := 0, theta := 0 })
              (reference_trajectory_N cfg s.stop
                (s.current_state.getD { x := 0, y := 0, theta := 0 })).1)
            (reference_trajectory_N cfg s.stop
              (s.current_state.getD { x := 0, y := 0, theta := 0 })).1
            (List.replicate cfg.N s.previous_control)).2 },
     { command := some
        (if (reference_trajectory_N cfg s.stop
              (s.current_state.getD { x := 0, y := 0, theta := 0 })).2 then
          { v := 0, w := 0 }
        else
          (solver
            (unwrap_current_state (s.current_state.getD { x := 0, y := 0, theta := 0 })
              (reference_trajectory_N cfg s.stop
                (s.current_state.getD { x := 0, y := 0, theta := 0 })).1)
            (reference_trajectory_N cfg s.stop
              (s.current_state.getD { x := 0, y := 0, theta := 0 })).1
            (List.replicate cfg.N s.previous_control)).1),
       solverCall := some
        { state := unwrap_current_state (s.current_state.getD { x := 0, y := 0, theta := 0 })
            (reference_trajectory_N cfg s.stop
              (s.current_state.getD { x := 0, y := 0, theta := 0 })).1,
          horizon := (reference_trajectory_N cfg s.stop
            (s.current_state.getD { x := 0, y := 0, theta := 0 })).1,
          ref_controls := List.replicate cfg.N s.previous_control },
       telemetry := some
        (send_data cfg
          (reference_trajectory_N cfg s.stop
            (s.current_state.getD { x := 0, y := 0, theta := 0 })).2
          (s.current_state.getD { x := 0, y := 0, theta := 0 })
          (solver
            (unwrap_current_state (s.current_state.getD { x := 0, y := 0, theta := 0 })
              (reference_trajectory_N cfg s.stop
                (s.current_state.getD { x := 0, y := 0, theta := 0 })).1)
            (reference_trajectory_N cfg s.stop
              (s.current_state.getD { x := 0, y := 0, theta := 0 })).1
            (List.replicate cfg.N s.previous_control)).2).1 })

/-- An external event delivered to the node: an odometry message or a firing
of the control-loop timer. -/
inductive Event where
  | odom (msg : OdomMsg) : Event
  | tick : Event

/-- Process one event.  `_init_communication` spins until
`initial_position_received` before `_init_controller` creates the timer, so a
timer tick cannot be delivered earlier; such a tick is modelled as a no-op
with no observable effects. -/
def step (cfg : Config) (solver : Solver) (s : NodeState) : Event → NodeState × Option TickEffects
  | Event.odom msg => (odom_callback s msg, none)
  | Event.tick =>
      if s.initial_position_received then
        ((control_loop cfg solver s).1, some (control_loop cfg solver s).2)
      else (s, none)

/-- Process a sequence of events, collecting the effects of every executed
tick in order. -/
def run (cfg : Config) (solver : Solver) : NodeState → List Event → NodeState × List TickEffects
  | s, [] => (s, [])
  | s, e :: es =>
      ((run cfg solver (step cfg solver s e).1 es).1,
       (step cfg solver s e).2.toList ++ (run cfg solver (step cfg solver s e).1 es).2)

/-- Number of timer-tick events in a list. -/
def countTicks : List Event → ℕ
  | [] => 0
  | Event.tick :: es => countTicks es + 1
  | Event.odom _ :: es => countTicks es

/-- An event stream in which the pose feed never delivers a pose away from
the origin: every odometry message carries the sentinel position `(0, 0)`. -/
def eventNeverValid : Event → Prop
  | Event.odom m => m.px = 0 ∧ m.py = 0
  | Event.tick => True

/-- The cost `find_closest_point_index` assigns to a single trajectory point,
written without the whole-path unwrap.  `costList_eq_map` below shows the
unwrap step cancels inside `atan2 (sin ·) (cos ·)`, so the cost array is
exactly the pointwise map of this function. -/
def pointCost (current_state p : Pose) : ℝ :=
  Real.sqrt ((p.x - current_state.x) ^ 2 + (p.y - current_state.y) ^ 2) +
    0.2 * |atan2 (Real.sin (p.theta - current_state.theta))
      (Real.cos (p.theta - current_state.theta))|

/-! Concrete fixtures used to instantiate the theorems below. -/

/-- A one-point reference path. -/
def pathOne : List Pose := [{ x := 0, y := 0, theta := 0 }]

/-- A two-point reference path whose points coincide, so the nearest-point
cost is tied between the two indices. -/
def pathTwo : List Pose :=
  [{ x := 0, y := 0, theta := 0 }, { x := 0, y := 0, theta := 0 }]

/-- A solver stub returning the constant command `(0.5, 0)` and no predicted
states. -/
def solverConst : Solver := fun _ _ _ => ({ v := 0.5, w := 0 }, [])

/-- A node state that has already received a valid pose at `(1, 0)`. -/
def stateReady : NodeState :=
  { current_state := some { x := 1, y := 0, theta := 0 },
    previous_control := { v := 0, w := 0 },
    x_position := 1, y_position := 0, yaw := 0,
    initial_position := some { x := 1, y := 0, theta := 0 },
    initial_position_received := true,
    odom_received := true, stop := false,
    optimal_control := none, next_states := none }

/-- `stateReady` with the stop flag already set. -/
def stateStopped : NodeState := { stateReady with stop := true }

/-- An odometry message sitting exactly at the origin (identity
orientation): the sentinel the node discards. -/
def msgOrigin : OdomMsg :=
  { px := 0, py := 0, qx := 0, qy := 0, qz := 0, qw := 1 }

end

/-! ### Properties of the numpy-primitive models -/

theorem npMod_nonneg (a b : ℝ) (hb : 0 < b) : 0 ≤ npMod a b := by
  have h1 : (⌊a / b⌋ : ℝ) ≤ a / b := Int.floor_le _
  have h2 : b * (⌊a / b⌋ : ℝ) ≤ b * (a / b) :=
    mul_le_mul_of_nonneg_left h1 (le_of_lt hb)
  have h3 : b * (a / b) = a := by field_simp
  unfold npMod
  nlinarith

theorem npMod_lt (a b : ℝ) (hb : 0 < b) : npMod a b < b := by
  have h1 : a / b < (⌊a / b⌋ : ℝ) + 1 := Int.lt_floor_add_one _
  have h2 : b * (a / b) < b * ((⌊a / b⌋ : ℝ) + 1) :=
    (mul_lt_mul_left hb).mpr h1
  have h3 : b * (a / b) = a := by field_simp
  unfold npMod
  nlinarith

theorem wrapDiff_bounds (d : ℝ) : -Real.pi ≤ wrapDiff d ∧ wrapDiff d ≤ Real.pi := by
  have hb : (0 : ℝ) < 2 * Real.pi := by positivity
  have h1 := npMod_nonneg (d + Real.pi) (2 * Real.pi) hb
  have h2 := npMod_lt (d + Real.pi) (2 * Real.pi) hb
  unfold wrapDiff
  split
  · constructor
    · linarith [Real.pi_pos]
    · exact le_rfl
  · constructor <;> linarith

theorem numpyCorr_int_mul (d : ℝ) : ∃ k : ℤ, numpyCorr d = 2 * Real.pi * k := by
  unfold numpyCorr
  split
  · exact ⟨0, by simp⟩
  · unfold wrapDiff npMod
    split
    · refine ⟨1 - ⌊(d + Real.pi) / (2 * Real.pi)⌋, ?_⟩
      rename_i h
      have hm := h.1
      push_cast
      nlinarith [hm]
    · exact ⟨-⌊(d + Real.pi) / (2 * Real.pi)⌋, by push_cast; ring⟩

theorem abs_add_numpyCorr_le (d : ℝ) : |d + numpyCorr d| ≤ Real.pi := by
  unfold numpyCorr
  split
  · rename_i h
    simpa using le_of_lt (by simpa using h)
  · have hw := wrapDiff_bounds d
    have : d + (wrapDiff d - d) = wrapDiff d := by ring
    rw [this, abs_le]
    exact hw

theorem unwrapAux_length (l : List ℝ) : ∀ c prev, (unwrapAux c prev l).length = l.length := by
  induction l with
  | nil => intro c prev; rfl
  | cons a rest ih =>
      intro c prev
      simp [unwrapAux, ih]

theorem unwrap_length (l : List ℝ) : (unwrap l).length = l.length := by
  cases l with
  | nil => rfl
  | cons a rest => simp [unwrap, unwrapAux_length]

theorem unwrapAux_getD_int (l : List ℝ) :
    ∀ c prev, (∃ kc : ℤ, c = 2 * Real.pi * kc) → ∀ i, i < l.length →
      ∃ k : ℤ, (unwrapAux c prev l).getD i 0 = l.getD i 0 + 2 * Real.pi * k := by
  induction l with
  | nil => intro c prev _ i hi; simp at hi
  | cons a rest ih =>
      intro c prev hc i hi
      obtain ⟨kc, hkc⟩ := hc
      obtain ⟨m, hm⟩ := numpyCorr_int_mul (a - prev)
      cases i with
      | zero =>
          refine ⟨kc + m, ?_⟩
          simp [unwrapAux, hkc, hm]
          ring
      | succ j =>
          have hj : j < rest.length := by simpa using hi
          obtain ⟨k, hk⟩ := ih (c + numpyCorr (a - prev)) a
            ⟨kc + m, by rw [hkc, hm]; push_cast; ring⟩ j hj
          exact ⟨k, by simpa [unwrapAux] using hk⟩

theorem unwrap_getD_int (l : List ℝ) (i : ℕ) (hi : i < l.length) :
    ∃ k : ℤ, (unwrap l).getD i 0 = l.getD i 0 + 2 * Real.pi * k := by
  cases l with
  | nil => simp at hi
  | cons a rest =>
      cases i with
      | zero => exact ⟨0, by simp [unwrap]⟩
      | succ j =>
          have hj : j < rest.length := by simpa using hi
          obtain ⟨k, hk⟩ := unwrapAux_getD_int rest 0 a ⟨0, by simp⟩ j hj
          exact ⟨k, by simpa [unwrap] using hk⟩

theorem unwrapAux_consec (l : List ℝ) :
    ∀ c prev i, i + 1 < ((prev + c) :: unwrapAux c prev l).length →
      |((prev + c) :: unwrapAux c prev l).getD (i + 1) 0 -
        ((prev + c) :: unwrapAux c prev l).getD i 0| ≤ Real.pi := by
  induction l with
  | nil => intro c prev i hi; simp [unwrapAux] at hi
  | cons b rest ih =>
      intro c prev i hi
      cases i with
      | zero =>
          have : (b + (c + numpyCorr (b - prev))) - (prev + c) =
              (b - prev) + numpyCorr (b - prev) := by ring
          simpa [unwrapAux, this] using abs_add_numpyCorr_le (b - prev)
      | succ j =>
          have hj : j + 1 < ((b + (c + numpyCorr (b - prev))) ::
              unwrapAux (c + numpyCorr (b - prev)) b rest).length := by
            simpa [unwrapAux, unwrapAux_length] using hi
          simpa [unwrapAux] using ih (c + numpyCorr (b - prev)) b j hj

theorem unwrap_consec (l : List ℝ) (i : ℕ) (hi : i + 1 < l.length) :
    |(unwrap l).getD (i + 1) 0 - (unwrap l).getD i 0| ≤ Real.pi := by
  cases l with
  | nil => simp at hi
  | cons a rest =>
      have hcons : unwrap (a :: rest) = (a + 0) :: unwrapAux 0 a rest := by
        simp [unwrap]
      have hlen : i + 1 < ((a + 0) :: unwrapAux 0 a rest).length := by
        simpa [unwrapAux_length] using hi
      rw [hcons]
      exact unwrapAux_consec rest 0 a i hlen

/-! ### Properties of the argmin model -/

theorem argminAux_spec (l : List ℝ) :
    ∀ (i best : ℕ) (bestC : ℝ),
      (argminAux l i best bestC = best ∧ ∀ a ∈ l, bestC ≤ a) ∨
      (∃ k, k < l.length ∧ argminAux l i best bestC = i + k ∧ l.getD k 0 < bestC ∧
        (∀ m, m < l.length → l.getD k 0 ≤ l.getD m 0) ∧
        (∀ m, m < k → l.getD k 0 < l.getD m 0)) := by
  induction l with
  | nil =>
      intro i best bestC
      left
      exact ⟨rfl, by simp⟩
  | cons c cs ih =>
      intro i best bestC
      by_cases hc : c < bestC
      · rcases ih (i + 1) i c with ⟨heq, hall⟩ | ⟨k, hk, heq, hlt, hmin, hfirst⟩
        · right
          refine ⟨0, by simp, ?_, by simpa using hc, ?_, ?_⟩
          · rw [argminAux, if_pos hc, heq]; omega
          · intro m hm
            cases m with
            | zero => simp
            | succ j =>
                have hj : j < cs.length := by simpa using hm
                have hmem : cs.getD j 0 ∈ cs := by
                  rw [List.getD_eq_getElem cs 0 hj]
                  exact List.getElem_mem hj
                simpa using hall _ hmem
          · intro m hm
            exact absurd hm (Nat.not_lt_zero m)
        · right
          refine ⟨k + 1, by simpa using hk, ?_, ?_, ?_, ?_⟩
          · rw [argminAux, if_pos hc, heq]; omega
          · simpa using lt_trans hlt hc
          · intro m hm
            cases m with
            | zero => simpa using le_of_lt hlt
            | succ j =>
                have hj : j < cs.length := by simpa using hm
                simpa using hmin j hj
          · intro m hm
            cases m with
            | zero => simpa using hlt
            | succ j =>
                have hj : j < k := by omega
                simpa using hfirst j hj
      · rcases ih (i + 1) best bestC with ⟨heq, hall⟩ | ⟨k, hk, heq, hlt, hmin, hfirst⟩
        · left
          refine ⟨?_, ?_⟩
          · rw [argminAux, if_neg hc, heq]
          · intro a ha
            rcases List.mem_cons.mp ha with rfl | ha'
            · exact le_of_not_lt hc
            · exact hall a ha'
        · right
          refine ⟨k + 1, by simpa using hk, ?_, ?_, ?_, ?_⟩
          · rw [argminAux, if_neg hc, heq]; omega
          · simpa using hlt
          · intro m hm
            cases m with
            | zero => simpa using le_of_lt (lt_of_lt_of_le hlt (le_of_not_lt hc))
            | succ j =>
                have hj : j < cs.length := by simpa using hm
                simpa using hmin j hj
          · intro m hm
            cases m with
            | zero => simpa using lt_of_lt_of_le hlt (le_of_not_lt hc)
            | succ j =>
                have hj : j < k := by omega
                simpa using hfirst j hj

theorem argminFirst_spec (l : List ℝ) (h : l ≠ []) :
    argminFirst l < l.length ∧
    (∀ m, m < l.length → l.getD (argminFirst l) 0 ≤ l.getD m 0) ∧
    (∀ m, m < argminFirst l → l.getD (argminFirst l) 0 < l.getD m 0) := by
  cases l with
  | nil => exact absurd rfl h
  | cons c cs =>
      have hfirst : argminFirst (c :: cs) = argminAux cs 1 0 c := rfl
      rcases argminAux_spec cs 1 0 c with ⟨heq, hall⟩ | ⟨k, hk, heq, hlt, hmin, hfirstk⟩
      · rw [hfirst, heq]
        refine ⟨by simp, ?_, ?_⟩
        · intro m hm
          cases m with
          | zero => simp
          | succ j =>
              have hj : j < cs.length := by simpa using hm
              have hmem : cs.getD j 0 ∈ cs := by
                rw [List.getD_eq_getElem cs 0 hj]
                exact List.getElem_mem hj
              simpa using hall _ hmem
        · intro m hm
          exact absurd hm (Nat.not_lt_zero m)
      · rw [hfirst, heq]
        have hk1 : 1 + k = k + 1 := by omega
        rw [hk1]
        refine ⟨by simpa using hk, ?_, ?_⟩
        · intro m hm
          cases m with
          | zero => simpa using le_of_lt hlt
          | succ j =>
              have hj : j < cs.length := by simpa using hm
              simpa using hmin j hj
        · intro m hm
          cases m with
          | zero => simpa using hlt
          | succ j =>
              have hj : j < k := by omega
              simpa using hfirstk j hj

/-- The first-argmin is uniquely determined by being a strict minimiser. -/
theorem argminFirst_eq_of_unique (l : List ℝ) (j : ℕ) (hj : j < l.length)
    (huniq : ∀ i, i < l.length → i ≠ j → l.getD j 0 < l.getD i 0) :
    argminFirst l = j := by
  have hne : l ≠ [] := by
    intro hnil
    rw [hnil] at hj
    simp at hj
  obtain ⟨hlt, hmin, _⟩ := argminFirst_spec l hne
  by_contra hcon
  have h1 := huniq (argminFirst l) hlt hcon
  have h2 := hmin j hj
  linarith

/-! ### Structure of the nearest-point cost -/

theorem costList_length (rt : List Pose) (cs : Pose) :
    (costList rt cs).length = rt.length := by
  simp [costList, unwrap_length]

theorem costList_eq_map (rt : List Pose) (cs : Pose) :
    costList rt cs = rt.map (pointCost cs) := by
  apply List.ext_getElem
  · simp [costList_length]
  · intro i h1 h2
    have hi : i < rt.length := by simpa using h2
    have hiu : i < (unwrap (rt.map Pose.theta)).length := by
      simpa [unwrap_length] using hi
    have hit : i < (rt.map Pose.theta).length := by simpa using hi
    obtain ⟨k, hk⟩ := unwrap_getD_int (rt.map Pose.theta) i hit
    rw [List.getD_eq_getElem _ 0 hiu, List.getD_eq_getElem _ 0 hit] at hk
    have hthetai : (rt.map Pose.theta)[i] = rt[i].theta := by
      simp
    rw [hthetai] at hk
    have harg : ∀ y : ℝ, rt[i].theta + 2 * Real.pi * (k : ℝ) - y =
        (rt[i].theta - y) + (k : ℝ) * (2 * Real.pi) := by
      intro y; ring
    simp only [costList, List.getElem_zipWith, List.getElem_map]
    rw [hk, harg, Real.sin_add_int_mul_two_pi, Real.cos_add_int_mul_two_pi]
    simp [pointCost]

theorem costList_rotate (rt : List Pose) (cs : Pose) (r : ℕ) :
    costList (rt.rotate r) cs = (costList rt cs).rotate r := by
  rw [costList_eq_map, costList_eq_map, List.map_rotate]

/-- Rotating the underlying list rotates the first-argmin, provided the
minimum is attained at a unique index. -/
theorem argminFirst_rotate_of_unique (l : List ℝ) (r : ℕ) (hne : l ≠ [])
    (huniq : ∀ i, i < l.length → i ≠ argminFirst l →
      l.getD (argminFirst l) 0 < l.getD i 0) :
    (argminFirst (l.rotate r) : ℤ) = ((argminFirst l : ℤ) - (r : ℤ)) % (l.length : ℤ) := by
  have hL : 0 < l.length := List.length_pos.mpr hne
  obtain ⟨hj, hmin, _⟩ := argminFirst_spec l hne
  set j := argminFirst l with hjdef
  set L := l.length with hLdef
  -- the target index in the rotated list
  have hLz : (0 : ℤ) < (L : ℤ) := by exact_mod_cast hL
  have hnonneg : 0 ≤ ((j : ℤ) - (r : ℤ)) % (L : ℤ) :=
    Int.emod_nonneg _ (by omega)
  have hltL : ((j : ℤ) - (r : ℤ)) % (L : ℤ) < (L : ℤ) :=
    Int.emod_lt_of_pos _ hLz
  set j' : ℕ := (((j : ℤ) - (r : ℤ)) % (L : ℤ)).toNat with hj'def
  have hj'cast : (j' : ℤ) = ((j : ℤ) - (r : ℤ)) % (L : ℤ) :=
    Int.toNat_of_nonneg hnonneg
  have hj'lt : j' < L := by omega
  -- (j' + r) % L = j
  have hback : (j' + r) % L = j := by
    have hz : ((j' + r : ℕ) : ℤ) % (L : ℤ) = (j : ℤ) % (L : ℤ) := by
      push_cast
      rw [Int.add_emod, hj'cast, Int.emod_emod_of_dvd _ dvd_rfl]
      rw [← Int.add_emod]
      have : (j : ℤ) - (r : ℤ) + (r : ℤ) = (j : ℤ) := by ring
      rw [this]
    have hzz : ((j' + r) % L : ℕ) = (j : ℕ) % L := by
      have h := hz
      rw [← Int.natCast_mod, ← Int.natCast_mod] at h
      exact_mod_cast h
    rw [hzz, Nat.mod_eq_of_lt hj]
  -- value at j' in the rotated list is the minimum value
  have hrotlen : (l.rotate r).length = L := by simp [List.length_rotate]
  have hgetrot : ∀ i, (hir : i < L) → (l.rotate r).getD i 0 = l.getD ((i + r) % L) 0 := by
    intro i hir
    have hir' : i < (l.rotate r).length := by omega
    have hmod : (i + r) % L < L := Nat.mod_lt _ hL
    rw [List.getD_eq_getElem _ 0 hir', List.getD_eq_getElem _ 0 (by omega : (i + r) % L < l.length)]
    have := List.get_rotate l r ⟨i, hir'⟩
    simpa [List.get_eq_getElem] using this
  -- conclude via uniqueness in the rotated list
  have hres : argminFirst (l.rotate r) = j' := by
    apply argminFirst_eq_of_unique
    · rw [hrotlen]; exact hj'lt
    · intro i hi hine
      have hiL : i < L := by omega
      rw [hgetrot i hiL, hgetrot j' hj'lt, hback]
      apply huniq
      · exact Nat.mod_lt _ hL
      · intro hcon
        apply hine
        -- (i + r) % L = j = (j' + r) % L and both i, j' < L force i = j'
        have h1 : (i + r) % L = (j' + r) % L := by rw [hback, hcon]
        have h2 : (i + r) ≡ (j' + r) [MOD L] := h1
        have h3 : i ≡ j' [MOD L] := Nat.ModEq.add_right_cancel' r h2
        have h4 : i % L = j' % L := h3
        rw [Nat.mod_eq_of_lt hiL, Nat.mod_eq_of_lt hj'lt] at h4
        exact h4
  rw [hres, hj'cast]

/-! ### Node-level invariants -/

theorem reference_trajectory_N_snd (cfg : Config) (st : Bool) (c : Pose) :
    (reference_trajectory_N cfg st c).2 = (find_closest_point_index cfg st c).2 := rfl

theorem send_data_snd (cfg : Config) (st : Bool) (c : Pose) (ns : List Pose) :
    (send_data cfg st c ns).2 = (find_closest_point_index cfg st c).2 := rfl

/-- The nearest-point search never clears an already-set stop flag. -/
theorem find_closest_stop_mono (cfg : Config) (c : Pose) :
    (find_closest_point_index cfg true c).2 = true := by
  unfold find_closest_point_index
  split_ifs <;> rfl

/-- Under the `'stop'` policy, a terminal argmin sets the stop flag. -/
theorem find_closest_stop_trigger (cfg : Config) (st : Bool) (c : Pose)
    (hpt : cfg.path_type = "stop")
    (htrig : (cfg.reference_trajectory.length : ℤ) - (cfg.N : ℤ) ≤
      (closestIndexRaw cfg.reference_trajectory c : ℤ)) :
    (find_closest_point_index cfg st c).2 = true := by
  unfold find_closest_point_index
  rw [if_pos htrig, if_pos hpt]

theorem odom_callback_stop (s : NodeState) (m : OdomMsg) :
    (odom_callback s m).stop = s.stop := by
  unfold odom_callback
  split <;> rfl

theorem odom_callback_previous_control (s : NodeState) (m : OdomMsg) :
    (odom_callback s m).previous_control = s.previous_control := by
  unfold odom_callback
  split <;> rfl

theorem odom_callback_odom_mono (s : NodeState) (m : OdomMsg)
    (h : s.odom_received = true) : (odom_callback s m).odom_received = true := by
  unfold odom_callback
  split
  · exact h
  · rfl

theorem odom_callback_init_mono (s : NodeState) (m : OdomMsg)
    (h : s.initial_position_received = true) :
    (odom_callback s m).initial_position_received = true := by
  unfold odom_callback
  split
  · exact h
  · rfl

/-- A discarded (origin-position) message leaves the stored robot state and
both validity flags untouched. -/
theorem odom_callback_origin (s : NodeState) (m : OdomMsg)
    (h : m.px = 0 ∧ m.py = 0) :
    (odom_callback s m).current_state = s.current_state ∧
    (odom_callback s m).odom_received = s.odom_received ∧
    (odom_callback s m).initial_position_received = s.initial_position_received ∧
    (odom_callback s m).initial_position = s.initial_position := by
  unfold odom_callback
  rw [if_pos h]
  exact ⟨rfl, rfl, rfl, rfl⟩

theorem control_loop_odom (cfg : Config) (solver : Solver) (s : NodeState) :
    (control_loop cfg solver s).1.odom_received = s.odom_received := by
  unfold control_loop
  split <;> rfl

theorem control_loop_init (cfg : Config) (solver : Solver) (s : NodeState) :
    (control_loop cfg solver s).1.initial_position_received =
      s.initial_position_received := by
  unfold control_loop
  split <;> rfl

theorem control_loop_previous_control (cfg : Config) (solver : Solver) (s : NodeState) :
    (control_loop cfg solver s).1.previous_control = s.previous_control := by
  unfold control_loop
  split <;> rfl

theorem control_loop_current_state (cfg : Config) (solver : Solver) (s : NodeState) :
    (control_loop cfg solver s).1.current_state = s.current_state := by
  unfold control_loop
  split <;> rfl

/-- Once this tick's nearest-point search reports completion, the published
command is zero and the tick leaves the stop flag set. -/
theorem control_loop_completed (cfg : Config) (solver : Solver) (s : NodeState)
    (h : s.odom_received = true)
    (hfind : (find_closest_point_index cfg s.stop
      (s.current_state.getD { x := 0, y := 0, theta := 0 })).2 = true) :
    (control_loop cfg solver s).2.command = some { v := 0, w := 0 } ∧
    (control_loop cfg solver s).1.stop = true := by
  have h' : ¬ s.odom_received = false := by simp [h]
  constructor
  · simp only [control_loop, if_neg h', reference_trajectory_N_snd, hfind, if_true]
  · simp only [control_loop, if_neg h', reference_trajectory_N_snd, send_data_snd, hfind,
      find_closest_stop_mono]

/-- Once the stop flag is set (and the loop is running), every further event
leaves it set and every further tick publishes the zero command. -/
theorem run_sticky (cfg : Config) (solver : Solver) :
    ∀ (es : List Event) (s : NodeState), s.stop = true → s.odom_received = true →
      s.initial_position_received = true →
      ((run cfg solver s es).2.map TickEffects.command =
        List.replicate (countTicks es) (some { v := 0, w := 0 })) ∧
      (run cfg solver s es).1.stop = true ∧
      (run cfg solver s es).1.odom_received = true ∧
      (run cfg solver s es).1.initial_position_received = true := by
  intro es
  induction es with
  | nil =>
      intro s h1 h2 h3
      exact ⟨rfl, h1, h2, h3⟩
  | cons e es ih =>
      intro s h1 h2 h3
      cases e with
      | odom m =>
          have ih' := ih (odom_callback s m)
            (by rw [odom_callback_stop]; exact h1)
            (odom_callback_odom_mono s m h2)
            (odom_callback_init_mono s m h3)
          simpa [run, step, countTicks] using ih'
      | tick =>
          have hfind : (find_closest_point_index cfg s.stop
              (s.current_state.getD { x := 0, y := 0, theta := 0 })).2 = true := by
            rw [h1]
            exact find_closest_stop_mono cfg _
          obtain ⟨hcmd, hstop'⟩ := control_loop_completed cfg solver s h2 hfind
          have ih' := ih (control_loop cfg solver s).1 hstop'
            (by rw [control_loop_odom]; exact h2)
            (by rw [control_loop_init]; exact h3)
          refine ⟨?_, ?_, ?_, ?_⟩
          · simp [run, step, h3, countTicks, List.replicate_succ, hcmd, ih'.1]
          · simpa [run, step, h3] using ih'.2.1
          · simpa [run, step, h3] using ih'.2.2.1
          · simpa [run, step, h3] using ih'.2.2.2

/-- While the pose feed only ever delivers origin-position messages, the node
produces no tick effects at all and never acquires a valid state. -/
theorem run_never_valid (cfg : Config) (solver : Solver) :
    ∀ (es : List Event) (s : NodeState), (∀ e ∈ es, eventNeverValid e) →
      s.initial_position_received = false →
      (run cfg solver s es).2 = [] ∧
      (run cfg solver s es).1.current_state = s.current_state ∧
      (run cfg solver s es).1.odom_received = s.odom_received ∧
      (run cfg solver s es).1.initial_position_received = false := by
  intro es
  induction es with
  | nil =>
      intro s _ h2
      exact ⟨rfl, rfl, rfl, h2⟩
  | cons e es ih =>
      intro s hben h2
      have hbene : eventNeverValid e := hben e (by simp)
      have hbenes : ∀ e' ∈ es, eventNeverValid e' := fun e' he' => hben e' (by simp [he'])
      cases e with
      | odom m =>
          obtain ⟨hcs, hod, hin, _⟩ := odom_callback_origin s m hbene
          have ih' := ih (odom_callback s m) hbenes (by rw [hin]; exact h2)
          refine ⟨?_, ?_, ?_, ?_⟩
          · simpa [run, step] using ih'.1
          · rw [show (run cfg solver s (Event.odom m :: es)).1 =
                (run cfg solver (odom_callback s m) es).1 from rfl, ih'.2.1, hcs]
          · rw [show (run cfg solver s (Event.odom m :: es)).1 =
                (run cfg solver (odom_callback s m) es).1 from rfl, ih'.2.2.1, hod]
          · rw [show (run cfg solver s (Event.odom m :: es)).1 =
                (run cfg solver (odom_callback s m) es).1 from rfl, ih'.2.2.2]
      | tick =>
          have h2' : ¬ s.initial_position_received = true := by simp [h2]
          have ih' := ih s hbenes h2
          refine ⟨?_, ?_, ?_, ?_⟩
          · simpa [run, step, h2'] using ih'.1
          · simpa [run, step, h2'] using ih'.2.1
          · simpa [run, step, h2'] using ih'.2.2.1
          · simpa [run, step, h2'] using ih'.2.2.2

/-! ### Claim theorems -/

/-- C1: under the `'stop'` path-completion policy, once the nearest-point
search finds an argmin index `i ≥ L - N` on a running tick, that tick and
every subsequent tick publish the zero command `(v, ω) = (0, 0)` — whatever
odometry arrives and whatever later searches return — and the stopped state
is never left. -/
theorem C1_sticky_stop (cfg : Config) (solver : Solver) (s : NodeState) (es : List Event)
    (hpt : cfg.path_type = "stop")
    (hodom : s.odom_received = true)
    (hinit : s.initial_position_received = true)
    (htrig : (cfg.reference_trajectory.length : ℤ) - (cfg.N : ℤ) ≤
      (closestIndexRaw cfg.reference_trajectory
        (s.current_state.getD { x := 0, y := 0, theta := 0 }) : ℤ)) :
    ((run cfg solver s (Event.tick :: es)).2.map TickEffects.command =
      List.replicate (countTicks (Event.tick :: es)) (some { v := 0, w := 0 })) ∧
    (run cfg solver s (Event.tick :: es)).1.stop = true := by
  have hfind := find_closest_stop_trigger cfg s.stop
    (s.current_state.getD { x := 0, y := 0, theta := 0 }) hpt htrig
  obtain ⟨hcmd, hstop'⟩ := control_loop_completed cfg solver s hodom hfind
  have hrest := run_sticky cfg solver es (control_loop cfg solver s).1 hstop'
    (by rw [control_loop_odom]; exact hodom)
    (by rw [control_loop_init]; exact hinit)
  constructor
  · simp [run, step, hinit, countTicks, List.replicate_succ, hcmd, hrest.1]
  · simpa [run, step, hinit] using hrest.2.1

theorem C1_sticky_stop_witness :
    ((run (initConfig pathOne "stop") solverConst stateReady [Event.tick, Event.tick]).2.map
        TickEffects.command = List.replicate 2 (some { v := 0, w := 0 })) ∧
    (run (initConfig pathOne "stop") solverConst stateReady
      [Event.tick, Event.tick]).1.stop = true := by
  have h := C1_sticky_stop (initConfig pathOne "stop") solverConst stateReady
    [Event.tick] rfl rfl rfl (by decide)
  simpa [countTicks] using h

/-- C10: after the stop flag is set, a running tick still performs the full
pipeline — nearest-point search and horizon extraction (the horizon handed
out is the one extracted at the index the search returns), solver call with
the unwrapped current state, that horizon and the tiled previous control, and
the telemetry send — and the solver's output is stored, while the published
command alone is replaced by zero. -/
theorem C10_stopped_tick_pipeline (cfg : Config) (solver : Solver) (s : NodeState)
    (hodom : s.odom_received = true) (hstop : s.stop = true) :
    (control_loop cfg solver s).2.command = some { v := 0, w := 0 } ∧
    (control_loop cfg solver s).2.solverCall = some
      { state := unwrap_current_state (s.current_state.getD { x := 0, y := 0, theta := 0 })
          (reference_trajectory_N cfg true
            (s.current_state.getD { x := 0, y := 0, theta := 0 })).1,
        horizon := (reference_trajectory_N cfg true
          (s.current_state.getD { x := 0, y := 0, theta := 0 })).1,
        ref_controls := List.replicate cfg.N s.previous_control } ∧
    (control_loop cfg solver s).2.telemetry = some
      (send_data cfg true (s.current_state.getD { x := 0, y := 0, theta := 0 })
        (solver
          (unwrap_current_state (s.current_state.getD { x := 0, y := 0, theta := 0 })
            (reference_trajectory_N cfg true
              (s.current_state.getD { x := 0, y := 0, theta := 0 })).1)
          (reference_trajectory_N cfg true
            (s.current_state.getD { x := 0, y := 0, theta := 0 })).1
          (List.replicate cfg.N s.previous_control)).2).1 ∧
    (control_loop cfg solver s).1.optimal_control = some
      (solver
        (unwrap_current_state (s.current_state.getD { x := 0, y := 0, theta := 0 })
          (reference_trajectory_N cfg true
            (s.current_state.getD { x := 0, y := 0, theta := 0 })).1)
        (reference_trajectory_N cfg true
          (s.current_state.getD { x := 0, y := 0, theta := 0 })).1
        (List.replicate cfg.N s.previous_control)).1 ∧
    (control_loop cfg solver s).1.stop = true ∧
    (reference_trajectory_N cfg true (s.current_state.getD { x := 0, y := 0, theta := 0 })).1 =
      extractHorizon cfg.reference_trajectory
        (find_closest_point_index cfg true
          (s.current_state.getD { x := 0, y := 0, theta := 0 })).1 cfg.N := by
  have h' : ¬ s.odom_received = false := by simp [hodom]
  refine ⟨?_, ?_, ?_, ?_, ?_, rfl⟩
  · simp only [control_loop, if_neg h', hstop, reference_trajectory_N_snd,
      find_closest_stop_mono, if_true]
  · simp only [control_loop, if_neg h', hstop]
  · simp only [control_loop, if_neg h', hstop, reference_trajectory_N_snd,
      find_closest_stop_mono]
  · simp only [control_loop, if_neg h', hstop]
  · simp only [control_loop, if_neg h', hstop, reference_trajectory_N_snd, send_data_snd,
      find_closest_stop_mono]

theorem C10_stopped_tick_pipeline_witness :
    (control_loop (initConfig pathOne "stop") solverConst stateStopped).2.command =
      some { v := 0, w := 0 } ∧
    (control_loop (initConfig pathOne "stop") solverConst stateStopped).2.solverCall = some
      { state := unwrap_current_state
          (stateStopped.current_state.getD { x := 0, y := 0, theta := 0 })
          (reference_trajectory_N (initConfig pathOne "stop") true
            (stateStopped.current_state.getD { x := 0, y := 0, theta := 0 })).1,
        horizon := (reference_trajectory_N (initConfig pathOne "stop") true
          (stateStopped.current_state.getD { x := 0, y := 0, theta := 0 })).1,
        ref_controls := List.replicate (initConfig pathOne "stop").N
          stateStopped.previous_control } ∧
    (control_loop (initConfig pathOne "stop") solverConst stateStopped).1.stop = true := by
  have h := C10_stopped_tick_pipeline (initConfig pathOne "stop") solverConst stateStopped
    rfl rfl
  exact ⟨h.1, h.2.1, h.2.2.2.2.1⟩

/-- C5: under the `'repeat'` policy, whenever the cost argmin lands within
`N` of the end of the path, the nearest-point search returns index `1` with
the stop flag still clear, the horizon handed to the solver is extracted from
index `1`, the published command is the solver's output (not a forced zero),
and the tick leaves the stop flag clear. -/
theorem C5_repeat_seam (cfg : Config) (solver : Solver) (s : NodeState)
    (hpt : cfg.path_type = "repeat")
    (hodom : s.odom_received = true)
    (hstop : s.stop = false)
    (htrig : (cfg.reference_trajectory.length : ℤ) - (cfg.N : ℤ) ≤
      (closestIndexRaw cfg.reference_trajectory
        (s.current_state.getD { x := 0, y := 0, theta := 0 }) : ℤ)) :
    find_closest_point_index cfg s.stop
      (s.current_state.getD { x := 0, y := 0, theta := 0 }) = (1, false) ∧
    (control_loop cfg solver s).2.solverCall = some
      { state := unwrap_current_state (s.current_state.getD { x := 0, y := 0, theta := 0 })
          (extractHorizon cfg.reference_trajectory 1 cfg.N),
        horizon := extractHorizon cfg.reference_trajectory 1 cfg.N,
        ref_controls := List.replicate cfg.N s.previous_control } ∧
    (control_loop cfg solver s).2.command = some
      (solver
        (unwrap_current_state (s.current_state.getD { x := 0, y := 0, theta := 0 })
          (extractHorizon cfg.reference_trajectory 1 cfg.N))
        (extractHorizon cfg.reference_trajectory 1 cfg.N)
        (List.replicate cfg.N s.previous_control)).1 ∧
    (control_loop cfg solver s).1.stop = false := by
  have h' : ¬ s.odom_received = false := by simp [hodom]
  have hne : ¬ cfg.path_type = "stop" := by rw [hpt]; decide
  have hfind : find_closest_point_index cfg false
      (s.current_state.getD { x := 0, y := 0, theta := 0 }) = (1, false) := by
    unfold find_closest_point_index
    rw [if_pos htrig, if_neg hne, if_pos hpt]
  have hrtn : reference_trajectory_N cfg false
      (s.current_state.getD { x := 0, y := 0, theta := 0 }) =
      (extractHorizon cfg.reference_trajectory 1 cfg.N, false) := by
    unfold reference_trajectory_N
    rw [hfind]
  refine ⟨by rw [hstop]; exact hfind, ?_, ?_, ?_⟩
  · simp only [control_loop, if_neg h', hstop, hrtn]
  · simp only [control_loop, if_neg h', hstop, hrtn]
    rfl
  · simp only [control_loop, if_neg h', hstop, hrtn]
    simp [send_data_snd, hfind]

theorem C5_repeat_seam_witness :
    find_closest_point_index (initConfig pathOne "repeat") false
      (stateReady.current_state.getD { x := 0, y := 0, theta := 0 }) = (1, false) ∧
    (control_loop (initConfig pathOne "repeat") solverConst stateReady).1.stop = false := by
  have h := C5_repeat_seam (initConfig pathOne "repeat") solverConst stateReady
    rfl rfl rfl (by decide)
  exact ⟨h.1, h.2.2.2⟩

/-- C2 (refuting evaluation): on a running tick the node publishes the
solver's command `(0.5, 0)`, yet the stored `previous_control` afterwards is
still the zero vector it was initialised to, not the command just emitted —
`controller_node.py` never reassigns `self.previous_control`, so the next
tick's reference controls are `N` copies of zero rather than of the
previously emitted command. -/
theorem C2_previous_control_never_stored :
    (control_loop (initConfig pathOne "repeat") solverConst stateReady).2.command =
      some { v := 0.5, w := 0 } ∧
    (control_loop (initConfig pathOne "repeat") solverConst stateReady).1.previous_control =
      { v := 0, w := 0 } ∧
    ({ v := 0.5, w := 0 } : Control) ≠ { v := 0, w := 0 } := by
  have h' : ¬ stateReady.odom_received = false := by decide
  have hrtn2 : (reference_trajectory_N (initConfig pathOne "repeat") stateReady.stop
      (stateReady.current_state.getD { x := 0, y := 0, theta := 0 })).2 = false := by decide
  refine ⟨?_, ?_, ?_⟩
  · simp only [control_loop, if_neg h', hrtn2, Bool.false_eq_true, if_false]
    rfl
  · rw [control_loop_previous_control]
    rfl
  · intro hcon
    have hv : (0.5 : ℝ) = 0 := congrArg Control.v hcon
    norm_num at hv

/-- C3 counterexample: on the one-point path, under the node's configured
`'repeat'` policy with `N = 10`, the unique cost-minimising index is `0`
(the path's only index), yet the nearest-point search returns `1` — so the
search does not always return the smallest cost-minimising index. -/
theorem C3_counterexample :
    (find_closest_point_index (initConfig pathOne "repeat") false
      { x := 5, y := 5, theta := 0 }).1 = 1 ∧
    closestIndexRaw pathOne { x := 5, y := 5, theta := 0 } = 0 ∧
    pathOne.length = 1 := by
  refine ⟨by decide, by decide, by decide⟩

/-- C3 amended: the cost-argmin stage computes the smallest index minimising
`cost(i) = ‖pos(path[i]) - pos(pose)‖ + 0.2·|angleDiff(unwrap(θ_path)[i], θ_pose)|`
(ties broken by the lowest index), and the nearest-point search returns
exactly that index *except* that, under the `'repeat'` policy, an argmin
within `N` of the end of the path is replaced by `1`. -/
theorem C3_nearest_index (cfg : Config) (pose : Pose) (st : Bool)
    (hne : cfg.reference_trajectory ≠ []) :
    closestIndexRaw cfg.reference_trajectory pose < cfg.reference_trajectory.length ∧
    (∀ i, i < cfg.reference_trajectory.length →
      (costList cfg.reference_trajectory pose).getD
          (closestIndexRaw cfg.reference_trajectory pose) 0 ≤
        (costList cfg.reference_trajectory pose).getD i 0) ∧
    (∀ i, i < closestIndexRaw cfg.reference_trajectory pose →
      (costList cfg.reference_trajectory pose).getD
          (closestIndexRaw cfg.reference_trajectory pose) 0 <
        (costList cfg.reference_trajectory pose).getD i 0) ∧
    (find_closest_point_index cfg st pose).1 =
      (if ((cfg.reference_trajectory.length : ℤ) - (cfg.N : ℤ) ≤
            (closestIndexRaw cfg.reference_trajectory pose : ℤ)) ∧ cfg.path_type = "repeat"
       then 1 else closestIndexRaw cfg.reference_trajectory pose) := by
  have hcne : costList cfg.reference_trajectory pose ≠ [] := by
    intro hnil
    have h0 := costList_length cfg.reference_trajectory pose
    rw [hnil] at h0
    exact hne (List.length_eq_zero.mp h0.symm)
  obtain ⟨hlt, hmin, hfirst⟩ := argminFirst_spec (costList cfg.reference_trajectory pose) hcne
  have hlen := costList_length cfg.reference_trajectory pose
  refine ⟨?_, ?_, ?_, ?_⟩
  · show argminFirst (costList cfg.reference_trajectory pose) < _
    rw [← hlen]
    exact hlt
  · intro i hi
    exact hmin i (by rw [hlen]; exact hi)
  · intro i hi
    exact hfirst i hi
  · unfold find_closest_point_index
    by_cases h1 : (cfg.reference_trajectory.length : ℤ) - (cfg.N : ℤ) ≤
        (closestIndexRaw cfg.reference_trajectory pose : ℤ)
    · rw [if_pos h1]
      by_cases h2 : cfg.path_type = "stop"
      · rw [if_pos h2,
          if_neg (by rintro ⟨_, hr⟩; exact absurd (h2.symm.trans hr) (by decide))]
      · by_cases h3 : cfg.path_type = "repeat"
        · rw [if_neg h2, if_pos h3, if_pos ⟨h1, h3⟩]
        · rw [if_neg h2, if_neg h3, if_neg (fun hc => h3 hc.2)]
    · rw [if_neg h1, if_neg (fun hc => h1 hc.1)]

theorem C3_nearest_index_witness :
    closestIndexRaw pathOne { x := 5, y := 5, theta := 0 } < pathOne.length ∧
    (find_closest_point_index (initConfig pathOne "stop") false
        { x := 5, y := 5, theta := 0 }).1 =
      (if (((initConfig pathOne "stop").reference_trajectory.length : ℤ) -
            ((initConfig pathOne "stop").N : ℤ) ≤
            (closestIndexRaw (initConfig pathOne "stop").reference_trajectory
              { x := 5, y := 5, theta := 0 } : ℤ)) ∧
          (initConfig pathOne "stop").path_type = "repeat"
       then 1
       else closestIndexRaw (initConfig pathOne "stop").reference_trajectory
        { x := 5, y := 5, theta := 0 }) := by
  have h := C3_nearest_index (initConfig pathOne "stop") { x := 5, y := 5, theta := 0 }
    false (by simp [initConfig, pathOne])
  exact ⟨h.1, h.2.2.2⟩

/-- C4: horizon extraction returns exactly `N + 1` entries, entry `k`
carrying the position of `path[(start + k) mod L]`, and — after the
orientation column alone is unwrapped — consecutive horizon orientations
differ by at most `π`, for every path of length ≥ 1, every start index and
every `N` (including paths with `θ` jumps of exactly `π`). -/
theorem C4_horizon (path : List Pose) (start N : ℕ) (hL : 1 ≤ path.length) :
    (extractHorizon path start N).length = N + 1 ∧
    (∀ k, k ≤ N →
      ((extractHorizon path start N).getD k { x := 0, y := 0, theta := 0 }).x =
        (path.getD ((start + k) % path.length) { x := 0, y := 0, theta := 0 }).x ∧
      ((extractHorizon path start N).getD k { x := 0, y := 0, theta := 0 }).y =
        (path.getD ((start + k) % path.length) { x := 0, y := 0, theta := 0 }).y) ∧
    (∀ k, k < N →
      |((extractHorizon path start N).getD (k + 1) { x := 0, y := 0, theta := 0 }).theta -
        ((extractHorizon path start N).getD k { x := 0, y := 0, theta := 0 }).theta| ≤
        Real.pi) := by
  have hextlen : (extractHorizon path start N).length = N + 1 := by
    simp [extractHorizon, unwrap_length]
  have hgetk : ∀ k, k < N + 1 →
      (extractHorizon path start N).getD k { x := 0, y := 0, theta := 0 } =
        { x := (path.getD ((start + k) % path.length) { x := 0, y := 0, theta := 0 }).x,
          y := (path.getD ((start + k) % path.length) { x := 0, y := 0, theta := 0 }).y,
          theta := (unwrap (((List.range (N + 1)).map (fun i =>
              path.getD ((start + i) % path.length)
                { x := 0, y := 0, theta := 0 })).map Pose.theta)).getD k 0 } := by
    intro k hk
    have hk2 : k < (extractHorizon path start N).length := by omega
    have hk4 : k < (unwrap (((List.range (N + 1)).map (fun i =>
        path.getD ((start + i) % path.length)
          { x := 0, y := 0, theta := 0 })).map Pose.theta)).length := by
      rw [unwrap_length]
      simp
      omega
    rw [List.getD_eq_getElem _ _ hk2, List.getD_eq_getElem _ _ hk4]
    unfold extractHorizon
    rw [List.getElem_zipWith]
    simp only [List.getElem_map, List.getElem_range]
  refine ⟨hextlen, ?_, ?_⟩
  · intro k hk
    rw [hgetk k (by omega)]
    exact ⟨rfl, rfl⟩
  · intro k hk
    rw [hgetk (k + 1) (by omega), hgetk k (by omega)]
    have hlen2 : k + 1 < (((List.range (N + 1)).map (fun i =>
        path.getD ((start + i) % path.length)
          { x := 0, y := 0, theta := 0 })).map Pose.theta).length := by
      simp
      omega
    exact unwrap_consec _ k hlen2

theorem C4_horizon_witness :
    (extractHorizon pathOne 0 2).length = 3 := by
  exact (C4_horizon pathOne 0 2 (by decide)).1

/-- C6: current-state unwrapping passes the position through unchanged,
shifts the yaw by exactly `-2π` (raw difference above `π`) or `+2π` (raw
difference below `-π`) and otherwise leaves it alone; in particular for
`horizon[0].θ = 3` and `θ = -3` the result is within `π` of the reference
orientation `3`. -/
theorem C6_unwrap_current (cs : Pose) (ref : List Pose) (hne : ref ≠ []) :
    (unwrap_current_state cs ref).x = cs.x ∧
    (unwrap_current_state cs ref).y = cs.y ∧
    (unwrap_current_state cs ref).theta =
      (if Real.pi < |cs.theta - (ref.getD 0 { x := 0, y := 0, theta := 0 }).theta| then
        (if 0 < cs.theta - (ref.getD 0 { x := 0, y := 0, theta := 0 }).theta then
          cs.theta - 2 * Real.pi
        else cs.theta + 2 * Real.pi)
      else cs.theta) ∧
    ((unwrap_current_state cs ref).theta = cs.theta ∨
     (unwrap_current_state cs ref).theta = cs.theta - 2 * Real.pi ∨
     (unwrap_current_state cs ref).theta = cs.theta + 2 * Real.pi) ∧
    |(unwrap_current_state { x := 0, y := 0, theta := -3 }
        [{ x := 0, y := 0, theta := 3 }]).theta - 3| ≤ Real.pi := by
  refine ⟨?_, ?_, ?_, ?_, ?_⟩
  · unfold unwrap_current_state
    split_ifs <;> rfl
  · unfold unwrap_current_state
    split_ifs <;> rfl
  · unfold unwrap_current_state
    split_ifs <;> rfl
  · unfold unwrap_current_state
    split_ifs
    · right; left; rfl
    · right; right; rfl
    · left; rfl
  · have hc1 : Real.pi < |({ x := 0, y := 0, theta := (-3 : ℝ) } : Pose).theta -
        (([{ x := 0, y := 0, theta := (3 : ℝ) }] : List Pose).getD 0
          { x := 0, y := 0, theta := 0 }).theta| := by
      show Real.pi < |(-3 : ℝ) - 3|
      have := Real.pi_le_four
      rw [show |(-3 : ℝ) - 3| = 6 by norm_num]
      linarith
    have hc2 : ¬ (0 : ℝ) < ({ x := 0, y := 0, theta := (-3 : ℝ) } : Pose).theta -
        (([{ x := 0, y := 0, theta := (3 : ℝ) }] : List Pose).getD 0
          { x := 0, y := 0, theta := 0 }).theta := by
      show ¬ (0 : ℝ) < (-3 : ℝ) - 3
      norm_num
    unfold unwrap_current_state
    rw [if_pos hc1, if_neg hc2]
    show |(-3 : ℝ) + 2 * Real.pi - 3| ≤ Real.pi
    have h3 := Real.pi_gt_three
    have h4 := Real.pi_le_four
    rw [abs_le]
    constructor <;> linarith

theorem C6_unwrap_current_witness :
    |(unwrap_current_state { x := 0, y := 0, theta := -3 }
        [{ x := 0, y := 0, theta := 3 }]).theta - 3| ≤ Real.pi := by
  exact (C6_unwrap_current { x := 0, y := 0, theta := -3 }
    [{ x := 0, y := 0, theta := 3 }] (by simp)).2.2.2.2

/-- Helper for C7: when every remaining row parses, the row loop succeeds
with the parsed rows in order. -/
theorem parseRows_ok (rows : List CsvRow) (hall : ∀ r ∈ rows, (parseRow r).isSome) :
    parseRows rows = Except.ok (rows.filterMap parseRow) ∧
    (rows.filterMap parseRow).length = rows.length := by
  induction rows with
  | nil => exact ⟨rfl, rfl⟩
  | cons r rs ih =>
      have hr := hall r (by simp)
      obtain ⟨p, hp⟩ := Option.isSome_iff_exists.mp hr
      have ih' := ih (fun r' hr' => hall r' (by simp [hr']))
      refine ⟨?_, ?_⟩
      · simp only [parseRows, hp, ih'.1, List.filterMap_cons_some hp]
      · simp only [List.filterMap_cons_some hp, List.length_cons, ih'.2]

/-- Helper for C7: a row that fails to parse makes the row loop fail. -/
theorem parseRows_err (rows : List CsvRow) (bad : CsvRow) (hmem : bad ∈ rows)
    (hbad : parseRow bad = none) :
    parseRows rows = Except.error LoadError.badRow := by
  induction rows with
  | nil => simp at hmem
  | cons r rs ih =>
      by_cases hr : parseRow r = none
      · simp only [parseRows, hr]
      · obtain ⟨p, hp⟩ := Option.ne_none_iff_exists.mp hr
        have hmem' : bad ∈ rs := by
          rcases List.mem_cons.mp hmem with rfl | h
          · rw [hbad] at hp
            exact absurd hp (Option.some_ne_none p)
          · exact h
        simp only [parseRows, ← hp, ih hmem']

/-- C7 counterexample: a one-row input whose single row parses as three
floats loads successfully as the *empty* path — the first row is consumed as
the CSV header — contradicting both "returns a path containing every row"
and "of length `L ≥ 1`". -/
theorem C7_counterexample :
    load_trajectory [[some 1, some 2, some 3]] = Except.ok ([] : List Pose) ∧
    ¬ 1 ≤ ([] : List Pose).length := by
  exact ⟨rfl, by simp⟩

/-- C7 amended: loading fails on an input with zero rows, and fails when any
row *after the first* fails to parse as exactly three floats; otherwise it
returns every row after the first, in order, of length `#rows - 1` (possibly
zero — the first row is discarded as the CSV header and is never parsed). -/
theorem C7_load (hdr : CsvRow) (rows rows2 : List CsvRow) (bad : CsvRow)
    (hall : ∀ r ∈ rows, (parseRow r).isSome)
    (hmem : bad ∈ rows2) (hbad : parseRow bad = none) :
    load_trajectory [] = Except.error LoadError.emptyFile ∧
    load_trajectory (hdr :: rows) = Except.ok (rows.filterMap parseRow) ∧
    (rows.filterMap parseRow).length = rows.length ∧
    load_trajectory (hdr :: rows2) = Except.error LoadError.badRow := by
  obtain ⟨h1, h2⟩ := parseRows_ok rows hall
  exact ⟨rfl, h1, h2, parseRows_err rows2 bad hmem hbad⟩

theorem C7_load_witness :
    load_trajectory [[none], [some 1, some 2, some 3]] =
      Except.ok ([[some 1, some 2, some 3]].filterMap parseRow) ∧
    load_trajectory [[none], [some 1]] = Except.error LoadError.badRow := by
  have h := C7_load [none] [[some 1, some 2, some 3]] [[some 1]] [some 1]
    (by
      intro r hr
      rw [List.mem_singleton] at hr
      subst hr
      rfl)
    (by simp) rfl
  exact ⟨h.2.1, h.2.2.2⟩

/-- C8: an odometry update whose position is exactly `(0, 0)` is discarded
without touching the stored robot state or either validity flag; and from
the initial state, a feed that never delivers a non-origin pose leaves the
node waiting forever: no tick produces any effect (in particular no velocity
command is ever published) and no valid state is ever acquired. -/
theorem C8_origin_sentinel (cfg : Config) (solver : Solver) (s : NodeState)
    (m : OdomMsg) (es : List Event)
    (hmx : m.px = 0) (hmy : m.py = 0)
    (hes : ∀ e ∈ es, eventNeverValid e) :
    (odom_callback s m).current_state = s.current_state ∧
    (odom_callback s m).odom_received = s.odom_received ∧
    (odom_callback s m).initial_position_received = s.initial_position_received ∧
    (odom_callback s m).initial_position = s.initial_position ∧
    (run cfg solver initialState es).2 = [] ∧
    (run cfg solver initialState es).1.current_state = none ∧
    (run cfg solver initialState es).1.odom_received = false ∧
    (run cfg solver initialState es).1.initial_position_received = false := by
  obtain ⟨h1, h2, h3, h4⟩ := odom_callback_origin s m ⟨hmx, hmy⟩
  have h5 := run_never_valid cfg solver es initialState hes rfl
  exact ⟨h1, h2, h3, h4, h5.1, h5.2.1.trans rfl, h5.2.2.1.trans rfl, h5.2.2.2⟩

theorem C8_origin_sentinel_witness :
    (run (initConfig pathOne "stop") solverConst initialState
      [Event.odom msgOrigin, Event.tick]).2 = [] ∧
    (run (initConfig pathOne "stop") solverConst initialState
      [Event.odom msgOrigin, Event.tick]).1.odom_received = false := by
  have h := C8_origin_sentinel (initConfig pathOne "stop") solverConst initialState
    msgOrigin [Event.odom msgOrigin, Event.tick] rfl rfl
    (by
      intro e he
      rcases List.mem_cons.mp he with rfl | he2
      · exact ⟨rfl, rfl⟩
      · rcases List.mem_cons.mp he2 with rfl | he3
        · trivial
        · simp at he3)
  exact ⟨h.2.2.2.2.1, h.2.2.2.2.2.2.1⟩

/-- Helper: under the `'stop'` policy the returned index is always the raw
cost argmin (the policy branch only sets the flag). -/
theorem find_closest_stop_policy_fst (path : List Pose) (pose : Pose) (N : ℕ) (st : Bool) :
    (find_closest_point_index { reference_trajectory := path, path_type := "stop", N := N }
      st pose).1 = closestIndexRaw path pose := by
  unfold find_closest_point_index
  split_ifs with h1 h2 h3 <;> first | rfl | exact absurd rfl h2

/-- Helper: the first-argmin of a two-element tie is the first index. -/
theorem argminFirst_pair_self (c : ℝ) : argminFirst [c, c] = 0 := by
  unfold argminFirst argminAux
  rw [if_neg (lt_irrefl c)]
  rfl

/-- Helper: a nonempty path has a nonempty cost array. -/
theorem costList_ne_nil (path : List Pose) (pose : Pose) (hne : path ≠ []) :
    costList path pose ≠ [] := by
  intro hnil
  have h0 := costList_length path pose
  rw [hnil] at h0
  exact hne (List.length_eq_zero.mp h0.symm)

/-- C9 counterexample: on the two-point path whose points coincide the cost
is tied between the indices; the argmin tie-breaks to index `0` both before
and after rotating the path by `1`, while the claimed equation demands the
rotated search return `(0 - 1) mod 2 = 1`. -/
theorem C9_counterexample :
    ((find_closest_point_index
        { reference_trajectory := pathTwo.rotate 1, path_type := "stop", N := 10 } false
        { x := 0, y := 0, theta := 0 }).1 : ℤ) ≠
      (((find_closest_point_index
          { reference_trajectory := pathTwo, path_type := "stop", N := 10 } false
          { x := 0, y := 0, theta := 0 }).1 : ℤ) - 1) % (pathTwo.length : ℤ) := by
  have hrot : pathTwo.rotate 1 = pathTwo := rfl
  have hcorr : numpyCorr (0 - 0 : ℝ) = 0 := by
    unfold numpyCorr
    rw [if_pos (by simpa using Real.pi_pos)]
  have hc0 : costList pathTwo { x := 0, y := 0, theta := 0 } =
      [Real.sqrt ((0 - 0) ^ 2 + (0 - 0) ^ 2) +
         0.2 * |atan2 (Real.sin (0 - 0)) (Real.cos (0 - 0))|,
       Real.sqrt ((0 - 0) ^ 2 + (0 - 0) ^ 2) +
         0.2 * |atan2 (Real.sin (0 + (0 + numpyCorr (0 - 0)) - 0))
           (Real.cos (0 + (0 + numpyCorr (0 - 0)) - 0))|] := rfl
  have hcraw : closestIndexRaw pathTwo { x := 0, y := 0, theta := 0 } = 0 := by
    unfold closestIndexRaw
    rw [hc0, hcorr]
    norm_num
    exact argminFirst_pair_self _
  rw [hrot, find_closest_stop_policy_fst, hcraw]
  decide

/-- C9 amended: provided the cost attains its minimum at a *unique* index,
the nearest-point search (whose returned index, under the `'stop'` policy,
is exactly the cost argmin) commutes with cyclic rotation of the path:
`argmin(rotate(path, r)) = (argmin(path) - r) mod L`.  The uniqueness proviso
is necessary: with tied costs the first-occurrence tie-break is not
rotation-invariant (see the counterexample). -/
theorem C9_rotation (path : List Pose) (pose : Pose) (N : ℕ) (st : Bool) (r : ℕ)
    (hne : path ≠ [])
    (huniq : ∀ i, i < path.length → i ≠ closestIndexRaw path pose →
      (costList path pose).getD (closestIndexRaw path pose) 0 <
        (costList path pose).getD i 0) :
    (find_closest_point_index { reference_trajectory := path, path_type := "stop", N := N }
        st pose).1 = closestIndexRaw path pose ∧
    ((closestIndexRaw (path.rotate r) pose : ℤ) =
      ((closestIndexRaw path pose : ℤ) - (r : ℤ)) % (path.length : ℤ)) := by
  refine ⟨find_closest_stop_policy_fst path pose N st, ?_⟩
  have hcne := costList_ne_nil path pose hne
  have hlen := costList_length path pose
  have huniq' : ∀ i, i < (costList path pose).length →
      i ≠ argminFirst (costList path pose) →
      (costList path pose).getD (argminFirst (costList path pose)) 0 <
        (costList path pose).getD i 0 := by
    intro i hi hne2
    exact huniq i (by rw [← hlen]; exact hi) hne2
  have hrot := argminFirst_rotate_of_unique (costList path pose) r hcne huniq'
  show (argminFirst (costList (path.rotate r) pose) : ℤ) = _
  rw [costList_rotate, hrot, hlen]
  rfl

theorem C9_rotation_witness :
    (closestIndexRaw (pathOne.rotate 1) { x := 5, y := 5, theta := 0 } : ℤ) =
      ((closestIndexRaw pathOne { x := 5, y := 5, theta := 0 } : ℤ) - 1) %
        (pathOne.length : ℤ) := by
  refine (C9_rotation pathOne { x := 5, y := 5, theta := 0 } 10 false 1
    (by simp [pathOne]) ?_).2
  intro i hi hne0
  exfalso
  have hi1 : i < 1 := by simpa [pathOne] using hi
  have h0 : closestIndexRaw pathOne { x := 5, y := 5, theta := 0 } = 0 := rfl
  rw [h0] at hne0
  omega

end NMPC
